import Mathlib

/-!
Verification of the branch/tag sync logic of the github-sync action.

The git command line is modelled as an oracle (`GitOracle`): `refCommit`
models `git rev-parse <ref>` as performed by `getRefCommit` (exit code
nonzero or empty output becomes `none`), and `mergeBase` models
`git merge-base <dest> <source>` as performed by `getMergeBase` (empty
output or failure becomes `none`).  The sync functions of
`src/gerrit.js` / `git-utils.js` are translated as pure functions over
this oracle; the git commands they run (pushes, deletions) are recorded
as events, and a thrown `Error` is recorded in a `fatal` field together
with the error lines the code logs on that path (the process exits
non-zero exactly when `fatal` is set).
-/

/-- Oracle for ref resolution and merge-base queries against the cloned
working tree: `refCommit r` is the result of `getRefCommit(r)` and
`mergeBase d s` the result of `getMergeBase(d, s)`. -/
structure GitOracle where
  refCommit : String → Option String
  mergeBase : String → String → Option String

/-- Return value of `hasDestinationBeenModified`: the object
`{ isModified, details }`. -/
structure ModCheck where
  isModified : Bool
  details : String
deriving DecidableEq

/-- Translation of `hasDestinationBeenModified(destRef, sourceRef)`
(git-utils.js lines 74-107, identically duplicated in gerrit.js):
resolve source then destination; a missing destination or source or a
missing merge base yields `isModified = false`; otherwise the
destination is modified iff its commit differs from the merge base. -/
def hasDestinationBeenModified (g : GitOracle) (destRef sourceRef : String) : ModCheck :=
  let sourceCommit := g.refCommit sourceRef
  let destCommit := g.refCommit destRef
  match destCommit, sourceCommit with
  | none, _ => ⟨false, "Destination branch does not exist"⟩
  | some _, none => ⟨false, "Source branch does not exist"⟩
  | some dc, some _ =>
    match g.mergeBase destRef sourceRef with
    | none => ⟨false, "No common history"⟩
    | some mb =>
      let destIsModified := dc != mb
      let details :=
        if destIsModified then
          "Destination has diverged: dest=" ++ dc.take 7 ++ ", merge-base=" ++ mb.take 7
        else
          "Destination is clean: dest=" ++ dc.take 7 ++ ", merge-base=" ++ mb.take 7
      ⟨destIsModified, details⟩

/-- Translation of `isSourceAheadOfDestination(destRef, sourceRef)`
(git-utils.js lines 115-148): `true` when the destination ref is
missing, `false` when the source ref is missing or there is no merge
base, otherwise `mergeBase === destCommit && sourceCommit !== destCommit`. -/
def isSourceAheadOfDestination (g : GitOracle) (destRef sourceRef : String) : Bool :=
  match g.refCommit destRef with
  | none => true
  | some destCommit =>
    match g.refCommit sourceRef with
    | none => false
    | some sourceCommit =>
      match g.mergeBase destRef sourceRef with
      | none => false
      | some mergeBase => mergeBase == destCommit && sourceCommit != destCommit

/-- Destination repository classification produced by
`isGerritRepository` (URL pattern match): standard Git host or Gerrit. -/
inductive RepoKind where
  | standard
  | gerrit
deriving DecidableEq

/-- The refspec the push commands use: `syncBranches` pushes
`refs/remotes/source/<src>:refs/heads/<dest>` and `syncBranchesGerrit`
pushes `refs/remotes/source/<src>:refs/for/<dest>`. -/
def pushRefspec (kind : RepoKind) (sourceBranchName destBranchName : String) : String :=
  match kind with
  | .standard => "refs/remotes/source/" ++ sourceBranchName ++ ":refs/heads/" ++ destBranchName
  | .gerrit => "refs/remotes/source/" ++ sourceBranchName ++ ":refs/for/" ++ destBranchName

/-- A git command executed against the destination remote:
`push refspec force` records `git push origin <refspec> [--force]`, and
`deleteBranch b` records `git push origin --delete <b>`. -/
inductive PushEvent where
  | push (refspec : String) (force : Bool)
  | deleteBranch (branch : String)
deriving DecidableEq

/-- Outcome of (part of) a sync run: the push/delete commands executed, in
order, and the error text when the run aborted (the `core.error` lines
plus the thrown `Error` message; the action then exits non-zero). -/
structure RunResult where
  events : List PushEvent
  fatal : Option String
deriving DecidableEq

/-- The error output of the `SYNC BLOCKED` path of `syncBranches` /
`syncBranchesGerrit`: the four `core.error` lines followed by the
message of the `Error` that is thrown. -/
def divergedAbortMessage (destBranchName details : String) : String :=
  "❌ SYNC BLOCKED: Destination branch \"" ++ destBranchName ++ "\" has been modified since last sync.\n" ++
  "   The destination contains commits that don\x27t exist in the source.\n" ++
  "   Details: " ++ details ++ "\n" ++
  "   To resolve this, manually merge or rebase the destination changes.\n" ++
  "Destination branch \"" ++ destBranchName ++ "\" has been modified. Manual intervention required."

/-- Per-pair body shared by the single-branch tail and the all-branch
loop of `syncBranches` (gerrit.js lines 1029-1199) and of
`syncBranchesGerrit` (lines 199-272, 303-398); the two flows differ only
in the refspec (`RepoKind`).  First `hasDestinationBeenModified` runs;
if it reports modified, the code logs the block errors and throws
(no push is executed).  Otherwise `isSourceAheadOfDestination` decides:
ahead yields a plain push; not ahead yields a force push both when the
destination ref is missing and when it exists (the code re-resolves the
destination ref and force-pushes in either arm). -/
def syncPair (g : GitOracle) (kind : RepoKind) (sourceBranchName destBranchName : String) : RunResult :=
  let destRef := "origin/" ++ destBranchName
  let sourceRef := "source/" ++ sourceBranchName
  let modCheck := hasDestinationBeenModified g destRef sourceRef
  if modCheck.isModified then
    ⟨[], some (divergedAbortMessage destBranchName modCheck.details)⟩
  else
    let isAhead := isSourceAheadOfDestination g destRef sourceRef
    if isAhead then
      ⟨[PushEvent.push (pushRefspec kind sourceBranchName destBranchName) false], none⟩
    else
      match g.refCommit destRef with
      | none => ⟨[PushEvent.push (pushRefspec kind sourceBranchName destBranchName) true], none⟩
      | some _ => ⟨[PushEvent.push (pushRefspec kind sourceBranchName destBranchName) true], none⟩

/-- The all-branch iteration of `syncBranches` / `syncBranchesGerrit`:
pairs `(sourceBranchName, destBranchName)` are processed in list order;
a thrown error (the diverged abort) stops the loop and the whole run. -/
def syncPairsLoop (g : GitOracle) (kind : RepoKind) : List (String × String) → RunResult
  | [] => ⟨[], none⟩
  | p :: rest =>
    let r := syncPair g kind p.1 p.2
    match r.fatal with
    | some e => ⟨r.events, some e⟩
    | none =>
      let rr := syncPairsLoop g kind rest
      ⟨r.events ++ rr.events, rr.fatal⟩

/-- Substring containment: `t` occurs contiguously inside `s`.  Used to
state that an error message identifies a branch name or an abbreviated
commit id. -/
def strContains (s t : String) : Prop := t.data <:+: s.data

theorem strContains_refl (t : String) : strContains t t :=
  List.infix_rfl

theorem strContains_appendLeft {a t : String} (b : String) (h : strContains a t) :
    strContains (a ++ b) t := by
  unfold strContains at h ⊢
  rw [String.data_append]
  exact h.trans ( List.IsPrefix.isInfix ( List.prefix_append a.data b.data))

theorem strContains_appendRight {b t : String} (a : String) (h : strContains b t) :
    strContains (a ++ b) t := by
  unfold strContains at h ⊢
  rw [String.data_append]
  exact h.trans ( List.IsSuffix.isInfix ( List.suffix_append a.data b.data))

/-- The blocked-path error output contains the destination branch name. -/
theorem divergedAbortMessage_contains_dest (d det : String) :
    strContains (divergedAbortMessage d det) d := by
  unfold divergedAbortMessage
  exact strContains_appendLeft _ (strContains_appendRight _ (strContains_refl d))

/-- The blocked-path error output contains anything its details line
contains. -/
theorem divergedAbortMessage_contains_det (d det t : String) (h : strContains det t) :
    strContains (divergedAbortMessage d det) t := by
  unfold divergedAbortMessage
  exact strContains_appendLeft _ (strContains_appendLeft _ (strContains_appendLeft _
    (strContains_appendLeft _ (strContains_appendLeft _ (strContains_appendRight _ h)))))

/-- Shared characterization of the blocking verdict of
`hasDestinationBeenModified`. -/
theorem modifiedCheck_iff (g : GitOracle) (destRef sourceRef : String) :
    (hasDestinationBeenModified g destRef sourceRef).isModified = true ↔
      ∃ dc sc mb, g.refCommit destRef = some dc ∧ g.refCommit sourceRef = some sc ∧
        g.mergeBase destRef sourceRef = some mb ∧ dc ≠ mb := by
  cases hd : g.refCommit destRef with
  | none => simp [hasDestinationBeenModified, hd]
  | some dc =>
    cases hs : g.refCommit sourceRef with
    | none => simp [hasDestinationBeenModified, hd, hs]
    | some sc =>
      cases hm : g.mergeBase destRef sourceRef with
      | none => simp [hasDestinationBeenModified, hd, hs, hm]
      | some mb =>
        simp [hasDestinationBeenModified, hd, hs, hm, bne_iff_ne]

/-- On the blocking verdict the details line spells out both abbreviated
commits. -/
theorem modifiedCheck_details (g : GitOracle) (destRef sourceRef dc sc mb : String)
    (hd : g.refCommit destRef = some dc) (hs : g.refCommit sourceRef = some sc)
    (hm : g.mergeBase destRef sourceRef = some mb) (hne : dc ≠ mb) :
    hasDestinationBeenModified g destRef sourceRef =
      ⟨true, "Destination has diverged: dest=" ++ dc.take 7 ++ ", merge-base=" ++ mb.take 7⟩ := by
  have hbne : (dc != mb) = true := bne_iff_ne.mpr hne
  simp [hasDestinationBeenModified, hd, hs, hm, hbne]

/-- C1: The divergence classification reports the blocking state
(`isModified = true`) iff the destination ref resolves to a commit, the
source ref resolves to a commit, a merge base exists, and the
destination commit differs from the merge base. -/
theorem c1_diverged_iff (g : GitOracle) (destRef sourceRef : String) :
    (hasDestinationBeenModified g destRef sourceRef).isModified = true ↔
      ∃ dc sc mb, g.refCommit destRef = some dc ∧ g.refCommit sourceRef = some sc ∧
        g.mergeBase destRef sourceRef = some mb ∧ dc ≠ mb :=
  modifiedCheck_iff g destRef sourceRef

/-- C2: When the divergence check blocks a branch pair, the pair's sync
aborts fatally, the error output names the destination branch and both
diverging commits abbreviated to 7 characters, and no push command is
executed for that pair. -/
theorem c2_diverged_abort (g : GitOracle) (k : RepoKind) (s d dc mb : String)
    (hd : g.refCommit ("origin/" ++ d) = some dc)
    (hm : g.mergeBase ("origin/" ++ d) ("source/" ++ s) = some mb)
    (hmod : (hasDestinationBeenModified g ("origin/" ++ d) ("source/" ++ s)).isModified = true) :
    (syncPair g k s d).events = [] ∧
      ∃ msg, (syncPair g k s d).fatal = some msg ∧
        strContains msg d ∧ strContains msg (dc.take 7) ∧ strContains msg (mb.take 7) := by
  obtain ⟨dc', sc, mb', hd', hs', hm', hne'⟩ := (modifiedCheck_iff g _ _).1 hmod
  have hne : dc ≠ mb := by
    rw [← Option.some.inj (hd'.symm.trans hd), ← Option.some.inj (hm'.symm.trans hm)]
    exact hne'
  have hcheck := modifiedCheck_details g ("origin/" ++ d) ("source/" ++ s) dc sc mb hd hs' hm hne
  have hpair : syncPair g k s d =
      ⟨[], some (divergedAbortMessage d
        ("Destination has diverged: dest=" ++ dc.take 7 ++ ", merge-base=" ++ mb.take 7))⟩ := by
    simp [syncPair, hcheck]
  rw [hpair]
  refine ⟨rfl, _, rfl, ?_, ?_, ?_⟩
  · exact divergedAbortMessage_contains_dest d _
  · exact divergedAbortMessage_contains_det d _ _
      (strContains_appendLeft _ (strContains_appendLeft _ (strContains_appendRight _
        (strContains_refl _))))
  · exact divergedAbortMessage_contains_det d _ _
      (strContains_appendRight _ (strContains_refl _))

/-- A world for the C2 witness: destination `main` sits at a commit that
differs from the merge base with source `main`. -/
def gDiverged : GitOracle :=
  ⟨fun r => if r = "origin/main" then some "deadbee1234"
    else if r = "source/main" then some "cafeba5678" else none,
   fun d s => if d = "origin/main" && s = "source/main" then some "0123456abcd" else none⟩

theorem c2_diverged_abort_witness :
    (syncPair gDiverged RepoKind.standard "main" "main").events = [] ∧
      ∃ msg, (syncPair gDiverged RepoKind.standard "main" "main").fatal = some msg ∧
        strContains msg "main" ∧ strContains msg (("deadbee1234" : String).take 7) ∧
        strContains msg (("0123456abcd" : String).take 7) :=
  c2_diverged_abort gDiverged RepoKind.standard "main" "main" "deadbee1234" "0123456abcd"
    (by decide) (by decide) (by decide)

/-- C3: In all-branch mode the pairs are processed in enumeration order
and a blocking verdict aborts the run at that pair: the whole run result
equals the run truncated right after the diverged pair (so nothing after
it — in particular no push for any later pair — is ever executed), and
the run ends fatally. -/
theorem c3_failFast (g : GitOracle) (k : RepoKind) (l₁ l₂ : List (String × String))
    (s d : String)
    (hmod : (hasDestinationBeenModified g ("origin/" ++ d) ("source/" ++ s)).isModified = true) :
    syncPairsLoop g k (l₁ ++ (s, d) :: l₂) = syncPairsLoop g k (l₁ ++ [(s, d)]) ∧
      ((syncPairsLoop g k (l₁ ++ (s, d) :: l₂)).fatal).isSome = true := by
  induction l₁ with
  | nil =>
    have hpair : (syncPair g k s d).fatal =
        some (divergedAbortMessage d (hasDestinationBeenModified g
          ("origin/" ++ d) ("source/" ++ s)).details) := by
      simp [syncPair, hmod]
    constructor
    · simp only [List.nil_append, syncPairsLoop, hpair]
    · simp only [List.nil_append, syncPairsLoop, hpair, Option.isSome_some]
  | cons p t ih =>
    simp only [List.cons_append, syncPairsLoop]
    cases hf : (syncPair g k p.1 p.2).fatal with
    | some e => simp [hf]
    | none =>
      have h2 := ih.2
      rw [ih.1] at h2
      simp [hf, ih.1, h2]

/-- A world for the C3 witness: branch `a` is clean and ahead, branch
`b` has diverged, branch `c` would be clean. -/
def gFailFast : GitOracle :=
  ⟨fun r =>
    if r = "origin/a" then some "A0" else if r = "source/a" then some "A1"
    else if r = "origin/b" then some "B7" else if r = "source/b" then some "B1"
    else if r = "origin/c" then some "C0" else if r = "source/c" then some "C1" else none,
   fun d _ =>
    if d = "origin/a" then some "A0" else if d = "origin/b" then some "B0"
    else if d = "origin/c" then some "C0" else none⟩

theorem c3_failFast_witness :
    syncPairsLoop gFailFast RepoKind.standard [("a", "a"), ("b", "b"), ("c", "c")] =
        syncPairsLoop gFailFast RepoKind.standard [("a", "a"), ("b", "b")] ∧
      ((syncPairsLoop gFailFast RepoKind.standard
        [("a", "a"), ("b", "b"), ("c", "c")]).fatal).isSome = true :=
  c3_failFast gFailFast RepoKind.standard [("a", "a")] [("c", "c")] "b" "b" (by decide)

/-- A world where destination `main`, source `main` and their merge base
are all the same commit: the destination is up to date with the source. -/
def gIdentical : GitOracle :=
  ⟨fun r => if r = "origin/main" then some "d4d4d4d99"
    else if r = "source/main" then some "d4d4d4d99" else none,
   fun d s => if d = "origin/main" && s = "source/main" then some "d4d4d4d99" else none⟩

/-- C4 (evaluation at the failing input): with destination and source
both at the same commit the check is clean and the run does not abort,
but the executed push carries the force flag — `isSourceAheadOfDestination`
returns `false` because source and destination commits are equal, and the
caller routes every non-ahead clean pair through its force-push arm. -/
theorem c4_identicalCommits_forcePush :
    (hasDestinationBeenModified gIdentical "origin/main" "source/main").isModified = false ∧
      syncPair gIdentical RepoKind.standard "main" "main" =
        ⟨[PushEvent.push "refs/remotes/source/main:refs/heads/main" true], none⟩ := by
  decide

/-- A world where the destination branch does not exist and the source
branch does: the EMPTY_DESTINATION situation. -/
def gEmptyDest : GitOracle :=
  ⟨fun r => if r = "source/main" then some "a2222222" else none,
   fun _ _ => none⟩

/-- A world where both branches exist but share no merge base: the
UNRELATED situation. -/
def gUnrelated : GitOracle :=
  ⟨fun r => if r = "origin/main" then some "e1111111"
    else if r = "source/main" then some "a2222222" else none,
   fun _ _ => none⟩

/-- C5 counterexample: when the destination ref does not exist the
executed push does not carry the force flag — `isSourceAheadOfDestination`
returns `true` for a missing destination, so the plain-push arm runs. -/
theorem c5_claim_counterexample :
    gEmptyDest.refCommit "origin/main" = none ∧
      syncPair gEmptyDest RepoKind.standard "main" "main" =
        ⟨[PushEvent.push "refs/remotes/source/main:refs/heads/main" false], none⟩ := by
  decide

/-- C5 (amended): when both refs exist but share no merge base
(UNRELATED) the executed push carries the force flag, with
`refs/heads/<dest>` for a STANDARD and `refs/for/<dest>` for a GERRIT
destination; when the destination ref does not exist
(EMPTY_DESTINATION) the push uses the same refspec but no force flag. -/
theorem c5_push_force_amended (g : GitOracle) (k : RepoKind) (s d : String) :
    (∀ dc sc, g.refCommit ("origin/" ++ d) = some dc →
      g.refCommit ("source/" ++ s) = some sc →
      g.mergeBase ("origin/" ++ d) ("source/" ++ s) = none →
      syncPair g k s d = ⟨[PushEvent.push (pushRefspec k s d) true], none⟩) ∧
    (g.refCommit ("origin/" ++ d) = none →
      syncPair g k s d = ⟨[PushEvent.push (pushRefspec k s d) false], none⟩) := by
  constructor
  · intro dc sc hd hs hm
    simp [syncPair, hasDestinationBeenModified, isSourceAheadOfDestination, hd, hs, hm]
  · intro hd
    simp [syncPair, hasDestinationBeenModified, isSourceAheadOfDestination, hd]

theorem c5_push_force_amended_witness :
    syncPair gUnrelated RepoKind.gerrit "main" "main" =
        ⟨[PushEvent.push (pushRefspec RepoKind.gerrit "main" "main") true], none⟩ ∧
      syncPair gEmptyDest RepoKind.standard "main" "main" =
        ⟨[PushEvent.push (pushRefspec RepoKind.standard "main" "main") false], none⟩ :=
  ⟨(c5_push_force_amended gUnrelated RepoKind.gerrit "main" "main").1 "e1111111" "a2222222"
      (by decide) (by decide) (by decide),
    (c5_push_force_amended gEmptyDest RepoKind.standard "main" "main").2 (by decide)⟩

/-- A world where the destination branch exists but the source ref does
not resolve to any commit. -/
def gMissingSource : GitOracle :=
  ⟨fun r => if r = "origin/main" then some "e3333333" else none,
   fun _ _ => none⟩

/-- C6 (evaluation at the failing input): although the source ref does
not resolve, the sync still executes a push (with force) for the pair —
`isSourceAheadOfDestination` returns `false` for a missing source and the
caller routes that through its force-push arm instead of skipping the
pair. -/
theorem c6_missingSource_push :
    gMissingSource.refCommit "source/main" = none ∧
      syncPair gMissingSource RepoKind.standard "main" "main" =
        ⟨[PushEvent.push "refs/remotes/source/main:refs/heads/main" true], none⟩ := by
  decide

/-- Translation of `Array.prototype.join(", ")` as applied to the
available-branch list in the two branch-not-found error messages. -/
def joinComma : List String → String
  | [] => ""
  | [x] => x
  | x :: y :: t => x ++ ", " ++ joinComma (y :: t)

/-- The `${availableBranches.join(", ") || "none"}` fragment of the two
branch-not-found error messages: the joined list, or `"none"` when the
join is empty. -/
def availableBranchesText (availableBranches : List String) : String :=
  let joined := joinComma availableBranches
  if joined = "" then "none" else joined

/-- Translation of `getTryFallbackBranch(availableBranches)` (gerrit.js
lines 813-825): the first of `["main", "master"]` contained in the
available branches, else nothing. -/
def getTryFallbackBranch (availableBranches : List String) : Option String :=
  ["main", "master"].find? (fun branch => availableBranches.contains branch)

/-- Message of the `Error` thrown when the configured branch is missing,
fallback is enabled and no fallback branch exists. -/
def branchNotFoundFallbackMsg (sourceBranch : String) (availableBranches : List String) : String :=
  "Branch \"" ++ sourceBranch ++
    "\" not found, and no fallback (main/master) available. Available branches: " ++
    availableBranchesText availableBranches

/-- Message of the `Error` thrown when the configured branch is missing
and fallback is disabled. -/
def branchNotFoundMsg (sourceBranch : String) (availableBranches : List String) : String :=
  "Branch \"" ++ sourceBranch ++ "\" not found in source repository. Available branches: " ++
    availableBranchesText availableBranches

/-- Translation of the single-branch source-branch resolution of
`syncBranches` (gerrit.js lines 1104-1128, duplicated in
`syncBranchesGerrit`): keep the configured branch when enumerated;
otherwise consult `getTryFallbackBranch` when the fallback flag is
enabled, and throw a branch-not-found error when it yields nothing or
the flag is disabled. -/
def resolveSourceBranch (availableBranches : List String) (sourceBranch : String)
    (useMainAsFallback : Bool) : Except String String :=
  if availableBranches.contains sourceBranch then Except.ok sourceBranch
  else if useMainAsFallback then
    match getTryFallbackBranch availableBranches with
    | some fallbackBranch => Except.ok fallbackBranch
    | none => Except.error (branchNotFoundFallbackMsg sourceBranch availableBranches)
  else Except.error (branchNotFoundMsg sourceBranch availableBranches)

instance (s t : String) : Decidable (strContains s t) :=
  inferInstanceAs (Decidable (t.data <:+: s.data))

/-- Every member of the list occurs in its comma join. -/
theorem strContains_joinComma (l : List String) (b : String) (hb : b ∈ l) :
    strContains (joinComma l) b := by
  induction l with
  | nil => cases hb
  | cons x xs ih =>
    cases xs with
    | nil =>
      have hbx : b = x := by simpa using hb
      subst hbx
      exact strContains_refl b
    | cons y t =>
      rcases List.mem_cons.1 hb with hbx | hbm
      · subst hbx
        exact strContains_appendLeft _ (strContains_appendLeft _ (strContains_refl b))
      · exact strContains_appendRight _ (ih hbm)

/-- Every member of the list occurs in the available-branches text. -/
theorem strContains_availText (l : List String) (b : String) (hb : b ∈ l) :
    strContains (availableBranchesText l) b := by
  unfold availableBranchesText
  by_cases hj : joinComma l = ""
  · have h1 := strContains_joinComma l b hb
    rw [hj] at h1
    have hbd : b.data = [] := by
      have h2 : b.data <:+: ("" : String).data := h1
      simpa using h2
    simp only [hj, if_pos rfl]
    show strContains "none" b
    unfold strContains
    rw [hbd]
    exact List.nil_infix
  · simp only [if_neg hj]
    exact strContains_joinComma l b hb

/-- C7: In single-branch mode with the configured source branch absent
from the enumerated branches: with the fallback flag enabled the sync
resolves to `"main"` when present, else to `"master"` when present, and
otherwise fails with a branch-not-found error that lists every available
branch; with the flag disabled it always fails with a branch-not-found
error. -/
theorem c7_fallback (avail : List String) (sb : String) (h : avail.contains sb = false) :
    (avail.contains "main" = true → resolveSourceBranch avail sb true = Except.ok "main") ∧
    (avail.contains "main" = false → avail.contains "master" = true →
      resolveSourceBranch avail sb true = Except.ok "master") ∧
    (avail.contains "main" = false → avail.contains "master" = false →
      ∃ e, resolveSourceBranch avail sb true = Except.error e ∧
        strContains e "not found" ∧ ∀ b ∈ avail, strContains e b) ∧
    (∃ e, resolveSourceBranch avail sb false = Except.error e ∧ strContains e "not found") := by
  have hsb : ¬ sb ∈ avail := by simpa using h
  refine ⟨?_, ?_, ?_, ?_⟩
  · intro hmain
    have hm : "main" ∈ avail := by simpa using hmain
    simp [resolveSourceBranch, hsb, getTryFallbackBranch, List.find?, hm]
  · intro hmain hmaster
    have hm1 : ¬ "main" ∈ avail := by simpa using hmain
    have hm2 : "master" ∈ avail := by simpa using hmaster
    simp [resolveSourceBranch, hsb, getTryFallbackBranch, List.find?, hm1, hm2]
  · intro hmain hmaster
    have hm1 : ¬ "main" ∈ avail := by simpa using hmain
    have hm2 : ¬ "master" ∈ avail := by simpa using hmaster
    refine ⟨branchNotFoundFallbackMsg sb avail, ?_, ?_, ?_⟩
    · simp [resolveSourceBranch, hsb, getTryFallbackBranch, List.find?, hm1, hm2]
    · unfold branchNotFoundFallbackMsg
      exact strContains_appendLeft _ (strContains_appendRight _ (by decide))
    · intro b hb
      unfold branchNotFoundFallbackMsg
      exact strContains_appendRight _ (strContains_availText avail b hb)
  · refine ⟨branchNotFoundMsg sb avail, ?_, ?_⟩
    · simp [resolveSourceBranch, hsb]
    · unfold branchNotFoundMsg
      exact strContains_appendLeft _ (strContains_appendRight _ (by decide))

theorem c7_fallback_witness :
    resolveSourceBranch ["develop", "master"] "main" true = Except.ok "master" :=
  (c7_fallback ["develop", "master"] "main" (by decide)).2.1 (by decide) (by decide)

/-- Translation of the branch-mapping construction of the all-branch arm
of `syncBranches` (gerrit.js lines 978-985, duplicated in
`syncBranchesGerrit`): each enumerated source branch maps to the
configured destination branch when it is the configured source branch,
and to its own name otherwise. -/
def branchMapping (sourceBranchNames : List String) (sourceBranch destinationBranch : String) :
    List (String × String) :=
  sourceBranchNames.map
    (fun branch => (branch, if branch = sourceBranch then destinationBranch else branch))

/-- `Object.values(branchMapping)` of gerrit.js line 1006: the mapped
destination branch names. -/
def expectedDestinationBranches (sourceBranchNames : List String)
    (sourceBranch destinationBranch : String) : List String :=
  (branchMapping sourceBranchNames sourceBranch destinationBranch).map Prod.snd

/-- The deletion candidates of gerrit.js lines 1009-1011: destination
branches that are not a value of the mapping. -/
def branchesToDelete (destinationBranches sourceBranchNames : List String)
    (sourceBranch destinationBranch : String) : List String :=
  destinationBranches.filter
    (fun branch =>
      !((expectedDestinationBranches sourceBranchNames sourceBranch destinationBranch).contains
        branch))

/-- The all-branch arm of the standard `syncBranches` (gerrit.js lines
972-1100): compute the mapping, delete the destination-only branches
(best-effort, failures are only warnings), then run the per-pair sync
loop over the mapping. -/
def syncBranchesAll (g : GitOracle) (kind : RepoKind)
    (sourceBranchNames destinationBranches : List String)
    (sourceBranch destinationBranch : String) : RunResult :=
  let toDelete := branchesToDelete destinationBranches sourceBranchNames sourceBranch
    destinationBranch
  let deleteEvents := toDelete.map PushEvent.deleteBranch
  let r := syncPairsLoop g kind (branchMapping sourceBranchNames sourceBranch destinationBranch)
  ⟨deleteEvents ++ r.events, r.fatal⟩

/-- C8: The all-branch mapping sends the configured source branch to the
configured destination branch and every other enumerated source branch
to its own name, and the deletion candidates are exactly the destination
branches that are not a value of the mapping; on the spec's example the
single candidate is `stale`. -/
theorem c8_mapping_deletion (srcNames destNames : List String) (sb db : String) :
    (∀ b ∈ srcNames, (b, if b = sb then db else b) ∈ branchMapping srcNames sb db) ∧
    (∀ p ∈ branchMapping srcNames sb db, p.2 = if p.1 = sb then db else p.1) ∧
    (∀ d, d ∈ branchesToDelete destNames srcNames sb db ↔
      d ∈ destNames ∧ ∀ b ∈ srcNames, (if b = sb then db else b) ≠ d) ∧
    branchesToDelete ["production", "stale"] ["main", "feature-x"] "main" "production" =
      ["stale"] := by
  refine ⟨?_, ?_, ?_, by decide⟩
  · intro b hb
    exact List.mem_map.2 ⟨b, hb, rfl⟩
  · intro p hp
    obtain ⟨b, hb, rfl⟩ := List.mem_map.1 hp
    rfl
  · intro d
    simp [branchesToDelete, expectedDestinationBranches, branchMapping, List.mem_filter,
      List.mem_map]

theorem c8_mapping_deletion_witness :
    (("feature-x" : String),
        if ("feature-x" : String) = "main" then ("production" : String) else "feature-x") ∈
        branchMapping ["main", "feature-x"] "main" "production" ∧
      branchesToDelete ["production", "stale"] ["main", "feature-x"] "main" "production" =
        ["stale"] :=
  ⟨(c8_mapping_deletion ["main", "feature-x"] ["production", "stale"] "main" "production").1
      "feature-x" (by decide),
    (c8_mapping_deletion ["main", "feature-x"] ["production", "stale"] "main" "production").2.2.2⟩

/-- A world where no ref resolves: used to evaluate the all-branch flow
on worlds where only the mapping matters. -/
def gNoRefs : GitOracle := ⟨fun _ => none, fun _ _ => none⟩

/-- C10 counterexample: with enumerated source branches `[production]`,
configured pair `(main, production)` and destination branches
`[production]`, the configured source branch is absent from the source
enumeration, yet `production` IS a value of the mapping (the branch
`production` maps to itself), so it is not a deletion candidate and no
deletion is attempted for it. -/
theorem c10_claim_counterexample :
    ¬ ("main" : String) ∈ (["production"] : List String) ∧
      ("production" : String) ∈ expectedDestinationBranches ["production"] "main" "production" ∧
      branchesToDelete ["production"] ["production"] "main" "production" = [] ∧
      ¬ PushEvent.deleteBranch "production" ∈
        (syncBranchesAll gNoRefs RepoKind.standard ["production"] ["production"] "main"
          "production").events := by
  decide

/-- C10 (amended): in all-branch mode, when the configured source branch
is absent from the enumerated source branches AND the configured
destination branch is not itself an enumerated source branch, the
destination branch is not a value of the mapping, so when it exists in
the destination it is a deletion candidate and the sync attempts to
delete it. -/
theorem c10_deletion_amended (g : GitOracle) (k : RepoKind)
    (srcNames destNames : List String) (sb db : String)
    (h1 : ¬ sb ∈ srcNames) (h2 : ¬ db ∈ srcNames) (h3 : db ∈ destNames) :
    ¬ db ∈ expectedDestinationBranches srcNames sb db ∧
      db ∈ branchesToDelete destNames srcNames sb db ∧
      PushEvent.deleteBranch db ∈ (syncBranchesAll g k srcNames destNames sb db).events := by
  have hnv : ¬ db ∈ expectedDestinationBranches srcNames sb db := by
    intro hmem
    rw [expectedDestinationBranches, branchMapping, List.map_map] at hmem
    obtain ⟨b, hb, hbeq⟩ := List.mem_map.1 hmem
    by_cases hbs : b = sb
    · exact h1 (hbs ▸ hb)
    · simp only [Function.comp, hbs, if_neg hbs] at hbeq
      exact h2 (hbeq ▸ hb)
  have hdel : db ∈ branchesToDelete destNames srcNames sb db := by
    rw [branchesToDelete, List.mem_filter]
    refine ⟨h3, ?_⟩
    simpa using hnv
  refine ⟨hnv, hdel, ?_⟩
  unfold syncBranchesAll
  exact List.mem_append.2 (Or.inl (List.mem_map.2 ⟨db, hdel, rfl⟩))

theorem c10_deletion_amended_witness :
    ¬ ("production" : String) ∈ expectedDestinationBranches ["dev"] "main" "production" ∧
      ("production" : String) ∈ branchesToDelete ["production"] ["dev"] "main" "production" ∧
      PushEvent.deleteBranch "production" ∈
        (syncBranchesAll gNoRefs RepoKind.standard ["dev"] ["production"] "main"
          "production").events :=
  c10_deletion_amended gNoRefs RepoKind.standard ["dev"] ["production"] "main" "production"
    (by decide) (by decide) (by decide)

/-- Oracle for the tag-sync flow: `tags` is the output of `git tag`
after the fetch, `tagMatches t` models the truthiness of
`t.match(pattern)`, `pushTagOk t force` models success of
`git push origin refs/tags/t:refs/tags/t [--force]`, and `fetchOk`
models success of `git fetch source --tags`. -/
structure TagOracle where
  fetchOk : Bool
  tags : List String
  tagMatches : String → Bool
  pushTagOk : String → Bool → Bool

/-- A tag-sync action: an executed tag push or a logged warning. -/
inductive TagEvent where
  | pushTag (tag : String) (force : Bool)
  | warn (message : String)
deriving DecidableEq

/-- The warning logged before the forced retry of a rejected tag push
(gerrit.js `syncTagsGerrit`, pattern arm). -/
def tagRetryWarning (tag : String) : String :=
  "⚠ Tag push failed (may be conflicting), retrying with force: " ++ tag

/-- Outcome of a tag sync: events in execution order, plus the error
that escaped the tag-sync function, if any (only then does the run
fail). -/
structure TagRunResult where
  events : List TagEvent
  fatal : Option String
deriving DecidableEq

/-- The per-tag push loop shared by `syncTagsGerrit` and `syncTags`
(pattern arm, gerrit.js lines 499-522 and 1242-1265): push each tag
without force; on rejection log a warning and retry once with force; a
failing forced retry throws out of the loop (the second component holds
the thrown error message, abstracting the text of the git failure). -/
def pushMatchingTags (w : TagOracle) : List String → List TagEvent × Option String
  | [] => ([], none)
  | tag :: rest =>
    if w.pushTagOk tag false then
      let r := pushMatchingTags w rest
      (TagEvent.pushTag tag false :: r.1, r.2)
    else if w.pushTagOk tag true then
      let r := pushMatchingTags w rest
      (TagEvent.pushTag tag false :: TagEvent.warn (tagRetryWarning tag) ::
        TagEvent.pushTag tag true :: r.1, r.2)
    else
      ([TagEvent.pushTag tag false, TagEvent.warn (tagRetryWarning tag),
        TagEvent.pushTag tag true],
        some ("git push failed for tag " ++ tag))

/-- The pattern arm of `syncTagsGerrit` (gerrit.js lines 476-525): fetch
tags, filter by the pattern, run the per-tag loop — all inside a `try`
whose `catch` only logs `Tag sync failed` as a warning, so no error
escapes and the run never fails here. -/
def syncTagsGerritPattern (w : TagOracle) : TagRunResult :=
  if w.fetchOk then
    let matchingTags := w.tags.filter w.tagMatches
    let r := pushMatchingTags w matchingTags
    match r.2 with
    | some e => ⟨r.1 ++ [TagEvent.warn ("⚠ Tag sync failed: " ++ e)], none⟩
    | none => ⟨r.1, none⟩
  else ⟨[TagEvent.warn "⚠ Tag sync failed: git fetch failed"], none⟩

/-- The pattern arm of the standard `syncTags` (gerrit.js lines
1220-1265): same loop, but with no surrounding catch — an error escaping
the loop (or the fetch) fails the run. -/
def syncTagsPattern (w : TagOracle) : TagRunResult :=
  if w.fetchOk then
    let r := pushMatchingTags w (w.tags.filter w.tagMatches)
    ⟨r.1, r.2⟩
  else ⟨[], some "git fetch failed"⟩

/-- A world where tag `v1` matches the pattern and both the plain and
the forced push of it are rejected. -/
def wTagFail : TagOracle := ⟨true, ["v1"], fun _ => true, fun _ _ => false⟩

/-- C9 counterexample: in the Gerrit tag flow, when the plain push of a
matching tag fails and the forced retry also fails, the run still does
not fail — the surrounding catch of `syncTagsGerrit` downgrades the
error to a warning, contradicting the claim that the forced retry's
failure is fatal. -/
theorem c9_claim_counterexample :
    wTagFail.pushTagOk "v1" false = false ∧ wTagFail.pushTagOk "v1" true = false ∧
      TagEvent.pushTag "v1" true ∈ (syncTagsGerritPattern wTagFail).events ∧
      (syncTagsGerritPattern wTagFail).fatal = none := by
  decide

/-- C9 (amended): for a Gerrit destination a rejected plain tag push is
retried exactly once with force, the retry is announced by a warning
(not an error), and a failure of the forced retry is itself caught and
logged as a warning: the Gerrit tag sync never makes the run fail. -/
theorem c9_tagRetry_amended (w : TagOracle) (tag : String) (rest : List String)
    (hfail : w.pushTagOk tag false = false) :
    (pushMatchingTags w (tag :: rest)).1.take 3 =
        [TagEvent.pushTag tag false, TagEvent.warn (tagRetryWarning tag),
          TagEvent.pushTag tag true] ∧
      (w.pushTagOk tag true = false →
        (pushMatchingTags w (tag :: rest)).1 =
            [TagEvent.pushTag tag false, TagEvent.warn (tagRetryWarning tag),
              TagEvent.pushTag tag true] ∧
          ((pushMatchingTags w (tag :: rest)).2).isSome = true) ∧
      (syncTagsGerritPattern w).fatal = none := by
  refine ⟨?_, ?_, ?_⟩
  · cases hr : w.pushTagOk tag true with
    | true => simp [pushMatchingTags, hfail, hr]
    | false => simp [pushMatchingTags, hfail, hr]
  · intro hr
    simp [pushMatchingTags, hfail, hr]
  · unfold syncTagsGerritPattern
    cases hf : w.fetchOk with
    | true =>
      cases hm : (pushMatchingTags w (w.tags.filter w.tagMatches)).2 with
      | none => simp [hf, hm]
      | some e => simp [hf, hm]
    | false => simp [hf]

theorem c9_tagRetry_amended_witness :
    (pushMatchingTags wTagFail ["v1"]).1.take 3 =
        [TagEvent.pushTag "v1" false, TagEvent.warn (tagRetryWarning "v1"),
          TagEvent.pushTag "v1" true] ∧
      (wTagFail.pushTagOk "v1" true = false →
        (pushMatchingTags wTagFail ["v1"]).1 =
            [TagEvent.pushTag "v1" false, TagEvent.warn (tagRetryWarning "v1"),
              TagEvent.pushTag "v1" true] ∧
          ((pushMatchingTags wTagFail ["v1"]).2).isSome = true) ∧
      (syncTagsGerritPattern wTagFail).fatal = none :=
  c9_tagRetry_amended wTagFail "v1" [] (by decide)
